import Mathlib

/-!
# mfwu_webserver: worker pool and rotating logger

A shallow embedding of `src/lib/threadpool.hpp` (class `ThreadPool`) and of
`src/lib/log.cpp` (class `Log`), followed by the properties checked on them.

Conventions of the embedding.

* A C++ `int` is a Lean `Int`; `/` and `%` on `int` are `Int.tdiv` and
  `Int.tmod` (truncation toward zero).
* A pointer that may be null is an `Option`; `nullptr` is `none`.
* The thread pool is an interleaving model.  Every stretch of code executed
  while `pool->mtx` is held is one atomic step; the steps of the different
  threads are interleaved by an explicit list of events.
* System calls (`time`, `localtime`, `gettimeofday`, `fopen`) do not compute
  anything from the program state.  Their results are inputs of the call that
  makes them (structure `Sys`), and the calls made are returned as a list of
  `Effect`s.  `fopen` of the empty name never returns a stream.
* The argument `path` of `Log::init` is the array of bytes it points to
  (`Mem`), because `init` prints it with `%S`, as a wide string, and `write`
  with `%s`, as a narrow one.
-/

namespace mfwu_webserver

/-! ## `threadpool.hpp` -/

/-- A task is a `std::function<void()>`; the number identifies the callable. -/
abbrev Task := Nat

/-- The shared state, `struct Pool` (threadpool.hpp:105-110).  The mutex and
the condition variable are represented by the atomicity of the steps below.
`tasks` is the `std::queue`: `front()` is the head of the list, `emplace`
appends at the end. -/
structure Pool where
  isClosed : Bool
  tasks : List Task
deriving DecidableEq, Repr

/-- Where a worker thread stands in the lambda of threadpool.hpp:66-78. -/
inductive Worker where
  /-- holds `locker` (or is about to get it) at the top of `while (true)` -/
  | ready
  /-- inside `task()`, line 73, with the lock released -/
  | running (t : Task)
  /-- blocked inside `pool->cond.wait(locker)`, line 76 -/
  | waiting
  /-- left the loop through `break`, line 75 -/
  | exited
deriving DecidableEq, Repr

/-- One pass through the body of `while (true)` (threadpool.hpp:69-76), with
the lock held, up to the point where the lock is given up:
`if (!tasks.empty()) { task = front(); pop(); unlock(); task(); ... }
 else if (isClosed) break; else cond.wait(locker);`. -/
def workerIter (p : Pool) : Pool × Worker :=
  match p.tasks with
  | t :: rest => ({ p with tasks := rest }, Worker.running t)
  | [] => if p.isClosed then (p, Worker.exited) else (p, Worker.waiting)

/-- `ThreadPool::AddTask` (threadpool.hpp:96-102): `tasks.emplace(task)` under
the lock.  `isClosed` is not read. -/
def Pool.AddTask (p : Pool) (t : Task) : Pool :=
  { p with tasks := p.tasks ++ [t] }

/-- `ThreadPool::~ThreadPool` (threadpool.hpp:85-93): `isClosed = true` under
the lock. -/
def Pool.close (p : Pool) : Pool :=
  { p with isClosed := true }

/-- The pool together with its worker threads.  `popped` and `executed` are
history variables, not program state: `popped` lists the tasks in the order in
which they were taken from the queue (line 70-71), `executed` lists the tasks
whose call `task()` (line 73) has returned. -/
structure PoolSys where
  pool : Pool
  workers : List Worker
  popped : List Task
  executed : List Task
deriving DecidableEq, Repr

/-- The atomic steps of the system. -/
inductive Event where
  /-- a call `AddTask(t)` -/
  | addTask (t : Task)
  /-- worker `i`, at the top of the loop, runs `workerIter` -/
  | iter (i : Nat)
  /-- the task run by worker `i` returns and the worker locks again (line 74) -/
  | finish (i : Nat)
  /-- `cond.wait` of worker `i` returns (notification or spurious wake-up) -/
  | wake (i : Nat)
  /-- the destructor of the pool handle -/
  | destroy
deriving DecidableEq, Repr

/-- `ThreadPool::ThreadPool(threadCount)` (threadpool.hpp:62-80).
`assert(threadCount > 0)` fails for `0` (result `none`).  `make_shared<Pool>()`
value-initialises the `Pool`: `isClosed` is `false`, the queue is empty.  Every
started thread begins at the top of its loop. -/
def ThreadPool.ctor (threadCount : Nat) : Option PoolSys :=
  if threadCount = 0 then none
  else some
    { pool := { isClosed := false, tasks := [] }
      workers := List.replicate threadCount Worker.ready
      popped := []
      executed := [] }

/-- One atomic step; `none` when the event is not enabled in the state. -/
def step (s : PoolSys) : Event → Option PoolSys
  | Event.addTask t => some { s with pool := s.pool.AddTask t }
  | Event.destroy => some { s with pool := s.pool.close }
  | Event.iter i =>
    match s.workers.get? i with
    | some Worker.ready =>
      let r := workerIter s.pool
      some
        { pool := r.1
          workers := s.workers.set i r.2
          popped :=
            match r.2 with
            | Worker.running t => s.popped ++ [t]
            | _ => s.popped
          executed := s.executed }
    | _ => none
  | Event.finish i =>
    match s.workers.get? i with
    | some (Worker.running t) =>
      some { s with workers := s.workers.set i Worker.ready, executed := s.executed ++ [t] }
    | _ => none
  | Event.wake i =>
    match s.workers.get? i with
    | some Worker.waiting => some { s with workers := s.workers.set i Worker.ready }
    | _ => none

/-- Runs a list of events, left to right. -/
def run (s : PoolSys) : List Event → Option PoolSys
  | [] => some s
  | e :: es => (step s e).bind fun s1 => run s1 es

/-- The states reached from a freshly constructed pool. -/
def exec (threadCount : Nat) (evs : List Event) : Option PoolSys :=
  (ThreadPool.ctor threadCount).bind fun s => run s evs

/-- The tasks passed to `AddTask` in a list of events, in call order. -/
def submittedOf : List Event → List Task
  | [] => []
  | Event.addTask t :: es => t :: submittedOf es
  | _ :: es => submittedOf es

/-- The tasks that workers are running at the moment. -/
def inFlight : List Worker → List Task
  | [] => []
  | Worker.running t :: ws => t :: inFlight ws
  | _ :: ws => inFlight ws

/-- No worker is in the middle of a task. -/
def noneRunning (ws : List Worker) : Bool :=
  ws.all fun w => match w with
    | Worker.running _ => false
    | _ => true

/-- Every worker thread has left its loop. -/
def allExited (ws : List Worker) : Bool :=
  ws.all fun w => decide (w = Worker.exited)

/-- The task a worker is running, as a list of length at most one. -/
def Worker.current : Worker → List Task
  | Worker.running t => [t]
  | _ => []

/-- The two facts that every step keeps: the queue holds exactly the submitted
tasks that were not popped yet, in order; the popped tasks are the executed
ones together with those in flight. -/
structure Inv (s : PoolSys) (submitted : List Task) : Prop where
  queue : s.popped ++ s.pool.tasks = submitted
  flight : (s.executed ++ inFlight s.workers).Perm s.popped

/-! ### Example runs of the pool -/

/-- Three tasks submitted to two workers and run to completion. -/
def threeTasks : List Event :=
  [Event.addTask 7, Event.iter 0, Event.addTask 8, Event.iter 1, Event.addTask 9,
    Event.finish 1, Event.iter 1, Event.finish 0, Event.finish 1]

/-- The state after `threeTasks`. -/
def threeTasksDone : PoolSys :=
  { pool := { isClosed := false, tasks := [] }
    workers := [Worker.ready, Worker.ready]
    popped := [7, 8, 9]
    executed := [8, 7, 9] }

/-- Four tasks submitted to two workers; three are popped. -/
def fourTasks : List Event :=
  [Event.addTask 1, Event.addTask 2, Event.iter 1, Event.addTask 3, Event.iter 0,
    Event.finish 0, Event.addTask 4, Event.iter 0]

/-- The state after `fourTasks`. -/
def fourTasksMidway : PoolSys :=
  { pool := { isClosed := false, tasks := [4] }
    workers := [Worker.running 3, Worker.running 1]
    popped := [1, 2, 3]
    executed := [2] }

/-- A closed pool with an empty queue whose only worker is at the top of its
loop. -/
def closedIdle : PoolSys :=
  { pool := { isClosed := true, tasks := [] }
    workers := [Worker.ready]
    popped := []
    executed := [] }

/-- The state `closedIdle` after the worker has left its loop. -/
def closedLeft : PoolSys :=
  { pool := { isClosed := true, tasks := [] }
    workers := [Worker.exited]
    popped := []
    executed := [] }

/-- The state `closedLeft` after tasks 5 and 6 were submitted. -/
def closedLeftTwo : PoolSys :=
  { pool := { isClosed := true, tasks := [5, 6] }
    workers := [Worker.exited]
    popped := []
    executed := [] }

/-! ## `log.cpp` -/

/-- The fields of `struct tm` that the logger reads: years since 1900, month
0-11 and day of the month 1-31, as `localtime` returns them. -/
structure Tm where
  tm_year : Int
  tm_mon : Int
  tm_mday : Int
deriving DecidableEq, Repr

/-- The array of `char` that a `const char*` argument points to, given by its
bytes without the NUL byte that ends the array: the array is `m ++ [0]`.  The
string literal `"./log"` is `[46, 47, 108, 111, 103]`; the literal
`"l\0\0\0\0\0\0"` is `[108, 0, 0, 0, 0, 0, 0]`. -/
abbrev Mem := List Nat

/-- The narrow string at the start of the array, as `%s`, `mkdir` and `fopen`
read it: the bytes before the first NUL. -/
def cstr (m : Mem) : String :=
  String.mk ((m.takeWhile fun b => b != 0).map Char.ofNat)

/-- What `snprintf` makes of the conversion `%S`, which reads its argument as
a `wchar_t*`: the text printed; a conversion error (`snprintf` returns -1 and
prints nothing); or a read beyond the end of the array, which is undefined. -/
inductive Wide where
  | text (s : String)
  | fails
  | outOfBounds
deriving DecidableEq, Repr

/-- The conversion `%S` in the C locale with a `wchar_t` of four bytes, low
byte first (glibc on Linux): the bytes are read four at a time up to the first
group that is zero; a group with a value below 128 prints as that character,
any other value is a conversion error. -/
def wideOfBytes : List Nat → Wide
  | b0 :: b1 :: b2 :: b3 :: rest =>
    let v := b0 + 256 * b1 + 65536 * b2 + 16777216 * b3
    if v = 0 then Wide.text ""
    else if v < 128 then
      match wideOfBytes rest with
      | Wide.text s => Wide.text (String.singleton (Char.ofNat v) ++ s)
      | w => w
    else Wide.fails
  | _ => Wide.outOfBounds

/-- The conversion `%S` applied to the array `m ++ [0]`. -/
def wideC (m : Mem) : Wide :=
  wideOfBytes (m ++ [0])

/-- What `log.cpp` takes from outside the sources.  `LOG_NAME_LEN` and
`MAX_LINES` are the constants of `log.hpp`: `MAX_LINES` is not zero
(`lineCount_ % MAX_LINES` is undefined otherwise) and `LOG_NAME_LEN` is above
72 (the size `LOG_NAME_LEN - 72` given to `snprintf` is positive).
`dequeCapacity` is the capacity of a `BlockDeque` built by its default
constructor.  `wide` is the conversion `%S` of the C library, applied at
log.cpp:67 to the narrow string `path_`. -/
structure Config where
  LOG_NAME_LEN : Nat
  MAX_LINES : Int
  dequeCapacity : Nat
  wide : Mem → Wide

/-- The queue behind `deque_`; only its capacity is represented. -/
structure BlockDeque where
  capacity : Nat
deriving DecidableEq, Repr

/-- The `std::thread` behind `writeThread_`, which runs `FlushLogThread`. -/
inductive Thread where
  | FlushLogThread
deriving DecidableEq, Repr

/-- The data members of `Log` used in `log.cpp`.  `fp_` is `none` for
`nullptr` and otherwise holds the name under which the stream was opened.
`path_` is the array that the pointer `path_` points to; `suffix_` is only
ever read with `%s` and is held as the narrow string. -/
structure Log where
  lineCount_ : Int
  isAsync_ : Bool
  writeThread_ : Option Thread
  deque_ : Option BlockDeque
  toDay_ : Int
  fp_ : Option String
  isOpen_ : Bool
  level_ : Int
  path_ : Mem
  suffix_ : String
deriving DecidableEq, Repr

/-- The calls that leave `log.cpp`, in the order in which they are made.
`flush()` and `buff_.RetrieveAll()` are defined outside `log.cpp`; they are
recorded as calls and assign none of the data members of `Log` below. -/
inductive Effect where
  /-- `buff_.RetrieveAll()` -/
  | retrieveAll
  /-- the member function `flush()` -/
  | flush
  /-- `fclose` of the stream opened under the name `file` -/
  | fclose (file : String)
  /-- `fopen(file, "a")` and whether it returned a stream -/
  | fopen (file : String) (ok : Bool)
  /-- `mkdir(path, 0777)` -/
  | mkdir (path : String)
  /-- `new BlockDeque<std::string>` -/
  | newDeque (capacity : Nat)
  /-- `new std::thread(FlushLogThread)` -/
  | newThread
deriving DecidableEq, Repr

/-- The results of the system calls made during one call of `init` or
`write`: the broken-down local time, whether the file system lets the first
`fopen` return a stream, and whether it lets the second one (after `mkdir`, in
`init` only). -/
structure Sys where
  now : Tm
  fopen1 : Bool
  fopen2 : Bool
deriving DecidableEq, Repr

/-- The result of `fopen(name, "a")`: no stream for the empty name (there is
no such file), and otherwise what the file system allows. -/
def fopen (name : String) (allowed : Bool) : Bool :=
  name != "" && allowed

/-- How a call ends: it returns with a new state, `assert(fp_ != nullptr)`
fails, or it runs into undefined behaviour (`fclose(nullptr)`, a read beyond
the end of an array). -/
inductive Outcome where
  | ok (s : Log)
  | assertFailed
  | undefined
deriving DecidableEq, Repr

/-- A call's effects and its outcome. -/
structure Result where
  effects : List Effect
  outcome : Outcome
deriving DecidableEq, Repr

/-- A run of `n` characters `0`. -/
def zeros (n : Nat) : String :=
  String.mk (List.replicate n '0')

/-- The conversion `%0wd` of `printf`: decimal digits, padded with zeros on
the left to `w` characters, the sign included. -/
def fmt0d (w : Nat) (n : Int) : String :=
  let digits := Nat.repr n.natAbs
  if n < 0 then "-" ++ zeros (w - 1 - digits.length) ++ digits
  else zeros (w - digits.length) ++ digits

/-- The conversion `%d` of `printf`. -/
def fmtd (n : Int) : String :=
  fmt0d 0 n

/-- The text `snprintf(buf, size, ...)` leaves in `buf`, given the full
formatted text: at most `size - 1` characters. -/
def snprintf (size : Nat) (s : String) : String :=
  String.mk (s.toList.take (size - 1))

/-- `Log::Log()` (log.cpp:5-12).  The constructor assigns no value to
`isOpen_`, `level_`, `path_` and `suffix_`; what they hold is an argument. -/
def Log.ctor (isOpen : Bool) (level : Int) (path : Mem) (suffix : String) : Log :=
  { lineCount_ := 0
    isAsync_ := false
    writeThread_ := none
    deque_ := none
    toDay_ := 0
    fp_ := none
    isOpen_ := isOpen
    level_ := level
    path_ := path
    suffix_ := suffix }

/-- `Log::GetLevel` (log.cpp:29-32). -/
def Log.GetLevel (s : Log) : Int :=
  s.level_

/-- `Log::SetLevel` (log.cpp:34-37). -/
def Log.SetLevel (s : Log) (level : Int) : Log :=
  { s with level_ := level }

/-- Lines 41-57 of `Log::init`: the flags and the choice of mode. -/
def Log.initMode (c : Config) (s : Log) (level : Int) (maxQueueSize : Int) :
    Log × List Effect :=
  let s1 := { s with isOpen_ := true, level_ := level }
  if maxQueueSize > 0 then
    match s1.deque_ with
    | none =>
      ({ s1 with
          isAsync_ := true
          deque_ := some { capacity := c.dequeCapacity }
          writeThread_ := some Thread.FlushLogThread },
        [Effect.newDeque c.dequeCapacity, Effect.newThread])
    | some _ => ({ s1 with isAsync_ := true }, [])
  else ({ s1 with isAsync_ := false }, [])

/-- The file name built at log.cpp:66-68,
`char fileName[LOG_NAME_LEN] = {0};
 snprintf(fileName, LOG_NAME_LEN - 1, "%S/%04d_%02d_%02d%s", path_,
 t.tm_year + 1900, t.tm_mon + 1, t.tm_mday, suffix_)`.
The path is printed with `%S`.  When that conversion fails nothing is printed
and `fileName` stays empty, as it was initialised; `none` stands for a read
beyond the array of the path. -/
def Log.initFileName (c : Config) (path : Mem) (suffix : String) (t : Tm) :
    Option String :=
  match c.wide path with
  | Wide.text p =>
    some (snprintf (c.LOG_NAME_LEN - 1)
      (p ++ "/" ++ fmt0d 4 (t.tm_year + 1900) ++ "_" ++ fmt0d 2 (t.tm_mon + 1)
        ++ "_" ++ fmt0d 2 t.tm_mday ++ suffix))
  | Wide.fails => some ""
  | Wide.outOfBounds => none

/-- Lines 74-77 of `Log::init`: `if (fp_) { flush(); fclose(fp_); }`. -/
def closing : Option String → List Effect
  | some f => [Effect.flush, Effect.fclose f]
  | none => []

/-- `Log::init` (log.cpp:39-85). -/
def Log.init (c : Config) (s : Log) (level : Int) (path : Mem) (suffix : String)
    (maxQueueSize : Int) (sys : Sys) : Result :=
  let m := Log.initMode c s level maxQueueSize
  let t := sys.now
  let s3 := { m.1 with lineCount_ := 0, path_ := path, suffix_ := suffix, toDay_ := t.tm_mday }
  match Log.initFileName c path suffix t with
  | none => { effects := m.2, outcome := Outcome.undefined }
  | some fileName =>
    let before := m.2 ++ [Effect.retrieveAll] ++ closing s3.fp_
    if fopen fileName sys.fopen1 then
      { effects := before ++ [Effect.fopen fileName true]
        outcome := Outcome.ok { s3 with fp_ := some fileName } }
    else if fopen fileName sys.fopen2 then
      { effects := before ++
          [Effect.fopen fileName false, Effect.mkdir (cstr path), Effect.fopen fileName true]
        outcome := Outcome.ok { s3 with fp_ := some fileName } }
    else
      { effects := before ++
          [Effect.fopen fileName false, Effect.mkdir (cstr path), Effect.fopen fileName false]
        outcome := Outcome.assertFailed }

/-- The condition of log.cpp:94,
`toDay_ != t.tm_mday || (lineCount_ && (lineCount_ % MAX_LINES == 0))`. -/
def Log.rotationDue (c : Config) (s : Log) (t : Tm) : Bool :=
  s.toDay_ != t.tm_mday || (s.lineCount_ != 0 && s.lineCount_.tmod c.MAX_LINES == 0)

/-- The buffer `tail` of log.cpp:99-101,
`snprintf(tail, 36, "%04d_%02d_%02d", t.tm_year + 1900, t.tm_year + 1900,
t.tm_mon + 1, t.tm_mday)`: the three conversions take the first three
arguments, the fourth is not printed. -/
def Log.tail (t : Tm) : String :=
  snprintf 36
    (fmt0d 4 (t.tm_year + 1900) ++ "_" ++ fmt0d 2 (t.tm_year + 1900) ++ "_"
      ++ fmt0d 2 (t.tm_mon + 1))

/-- Lines 103-109 of `Log::write`: the name in `newFile` and the state after
the assignments to `toDay_` and `lineCount_`. -/
def Log.newFile (c : Config) (s : Log) (t : Tm) : String × Log :=
  if s.toDay_ != t.tm_mday then
    (snprintf (c.LOG_NAME_LEN - 72) (cstr s.path_ ++ "/" ++ Log.tail t ++ s.suffix_),
      { s with toDay_ := t.tm_mday, lineCount_ := 0 })
  else
    (snprintf (c.LOG_NAME_LEN - 72)
      (cstr s.path_ ++ "/" ++ Log.tail t ++ "-" ++ fmtd (s.lineCount_.tdiv c.MAX_LINES)
        ++ s.suffix_),
      s)

/-- `Log::write` (log.cpp:87-118).  Neither `level` nor `format` is used by
the body. -/
def Log.write (c : Config) (s : Log) (_level : Int) (_format : String) (sys : Sys) :
    Result :=
  let t := sys.now
  if Log.rotationDue c s t then
    let r := Log.newFile c s t
    match r.2.fp_ with
    | none => { effects := [Effect.flush], outcome := Outcome.undefined }
    | some f =>
      if fopen r.1 sys.fopen1 then
        { effects := [Effect.flush, Effect.fclose f, Effect.fopen r.1 true]
          outcome := Outcome.ok { r.2 with fp_ := some r.1 } }
      else
        { effects := [Effect.flush, Effect.fclose f, Effect.fopen r.1 false]
          outcome := Outcome.assertFailed }
  else { effects := [], outcome := Outcome.ok s }

/-- A call of a member function of `Log`, with the results of its system
calls. -/
inductive LogCall where
  | init (level : Int) (path : Mem) (suffix : String) (maxQueueSize : Int) (sys : Sys)
  | write (level : Int) (format : String) (sys : Sys)
  | SetLevel (level : Int)
deriving DecidableEq, Repr

/-- Performs one call. -/
def Log.call (c : Config) (s : Log) : LogCall → Result
  | LogCall.init level path suffix q sys => Log.init c s level path suffix q sys
  | LogCall.write level format sys => Log.write c s level format sys
  | LogCall.SetLevel level => { effects := [], outcome := Outcome.ok (s.SetLevel level) }

/-- Performs a sequence of calls; stops at the first one that does not
return. -/
def Log.calls (c : Config) (s : Log) : List LogCall → Result
  | [] => { effects := [], outcome := Outcome.ok s }
  | k :: ks =>
    let r := Log.call c s k
    match r.outcome with
    | Outcome.ok s1 =>
      let r2 := Log.calls c s1 ks
      { effects := r.effects ++ r2.effects, outcome := r2.outcome }
    | o => { effects := r.effects, outcome := o }

/-- The names of the files opened with success, in order. -/
def filesOpened : List Effect → List String
  | [] => []
  | Effect.fopen f true :: es => f :: filesOpened es
  | _ :: es => filesOpened es

/-- The queues and threads created, in order. -/
def creations : List Effect → List Effect
  | [] => []
  | Effect.newDeque n :: es => Effect.newDeque n :: creations es
  | Effect.newThread :: es => Effect.newThread :: creations es
  | _ :: es => creations es

/-! ### Example inputs of the logger -/

/-- Parameters for the concrete evaluations below: a file-name buffer of 256
bytes, 50000 lines per file, a queue of 1000 entries, and the `%S` of the C
locale. -/
def exampleConfig : Config :=
  { LOG_NAME_LEN := 256, MAX_LINES := 50000, dequeCapacity := 1000, wide := wideC }

/-- A small line limit, to exercise rotation by line count. -/
def smallConfig : Config :=
  { LOG_NAME_LEN := 256, MAX_LINES := 2, dequeCapacity := 1000, wide := wideC }

/-- The argument `"./log"`, a directory name as a caller would write it.
Read as a `wchar_t*` its first four bytes are one wide character that the C
locale cannot convert. -/
def dotLog : Mem :=
  [46, 47, 108, 111, 103]

/-- The argument `"l\0\0\0\0\0\0"`: the narrow string `l`, and also, read as a
`wchar_t*`, the wide string `l`. -/
def pathL : Mem :=
  [108, 0, 0, 0, 0, 0, 0]

/-- The system calls of a call made on 15 January 2024; the file system lets
`fopen` succeed. -/
def jan15 : Sys :=
  { now := { tm_year := 124, tm_mon := 0, tm_mday := 15 }, fopen1 := true, fopen2 := true }

/-- The same on 16 January 2024. -/
def jan16 : Sys :=
  { now := { tm_year := 124, tm_mon := 0, tm_mday := 16 }, fopen1 := true, fopen2 := true }

/-- The same on 15 February 2024. -/
def feb15 : Sys :=
  { now := { tm_year := 124, tm_mon := 1, tm_mday := 15 }, fopen1 := true, fopen2 := true }

/-- A call made on 16 January 2024 whose `fopen` succeeds only after
`mkdir`. -/
def afterMkdir : Sys :=
  { now := { tm_year := 124, tm_mon := 0, tm_mday := 16 }, fopen1 := false, fopen2 := true }

/-- The logger after `init(level, "l\0\0\0\0\0\0", ".log", 0)` on
15 January 2024. -/
def openedJan15 (level : Int) : Log :=
  { Log.ctor true level pathL ".log" with toDay_ := 15, fp_ := some "l/2024_01_15.log" }

/-- The logger after a second `init`, with level 0 and queue size 4, on
16 January 2024. -/
def reopenedJan16 : Log :=
  { lineCount_ := 0
    isAsync_ := true
    writeThread_ := some Thread.FlushLogThread
    deque_ := some { capacity := 1000 }
    toDay_ := 16
    fp_ := some "l/2024_01_16.log"
    isOpen_ := true
    level_ := 0
    path_ := pathL
    suffix_ := ".log" }

/-! ### Invariants of the pool -/

theorem inFlight_cons (w : Worker) (ws : List Worker) :
    inFlight (w :: ws) = w.current ++ inFlight ws := by
  cases w <;> rfl

/-- Replacing the state of one worker moves its current task in or out of
the tasks in flight. -/
theorem inFlight_set (ws : List Worker) (i : Nat) (w w' : Worker)
    (h : ws.get? i = some w) :
    (w.current ++ inFlight (ws.set i w')).Perm (w'.current ++ inFlight ws) := by
  induction ws generalizing i with
  | nil => simp at h
  | cons a ws ih =>
    cases i with
    | zero =>
      simp at h
      subst h
      simp only [List.set_cons_zero, inFlight_cons]
      exact List.perm_append_comm_assoc _ _ _
    | succ j =>
      simp at h
      have h2 : ws.get? j = some w := by simpa using h
      have := ih j h2
      simp only [List.set_cons_succ, inFlight_cons]
      calc (w.current ++ (a.current ++ inFlight (ws.set j w'))).Perm
            (a.current ++ (w.current ++ inFlight (ws.set j w'))) :=
              List.perm_append_comm_assoc _ _ _
        _ |>.Perm (a.current ++ (w'.current ++ inFlight ws)) := List.Perm.append_left _ this
        _ |>.Perm (w'.current ++ (a.current ++ inFlight ws)) :=
              List.perm_append_comm_assoc _ _ _

theorem inFlight_of_noneRunning (ws : List Worker) (h : noneRunning ws = true) :
    inFlight ws = [] := by
  induction ws with
  | nil => rfl
  | cons a ws ih =>
    cases a <;> simp_all [noneRunning, inFlight]

theorem Inv_step (s s' : PoolSys) (sub : List Task) (e : Event)
    (hinv : Inv s sub) (h : step s e = some s') :
    Inv s' (sub ++ submittedOf [e]) := by
  obtain ⟨hq, hf⟩ := hinv
  cases e with
  | addTask t =>
    simp only [step, Option.some.injEq] at h
    subst h
    exact ⟨by simp [Pool.AddTask, submittedOf, ← hq], hf⟩
  | destroy =>
    simp only [step, Option.some.injEq] at h
    subst h
    exact ⟨by simpa [Pool.close, submittedOf] using hq, hf⟩
  | iter i =>
    simp only [step] at h
    split at h
    next hw =>
      simp only [Option.some.injEq] at h
      subst h
      have hset := fun w' => inFlight_set s.workers i Worker.ready w' hw
      simp only [Worker.current, List.nil_append] at hset
      cases hts : s.pool.tasks with
      | nil =>
        by_cases hc : s.pool.isClosed = true
        · simp only [workerIter, hts, hc, if_true, submittedOf, List.append_nil]
          exact ⟨by simpa [hts] using hq, (List.Perm.append_left _ (hset _)).trans hf⟩
        · simp only [workerIter, hts, hc, if_false, submittedOf, List.append_nil]
          exact ⟨by simpa [hts] using hq, (List.Perm.append_left _ (hset _)).trans hf⟩
      | cons t rest =>
        simp only [workerIter, hts, submittedOf, List.append_nil]
        refine ⟨by simpa [hts] using hq, ?_⟩
        have h1 : (s.executed ++ inFlight (s.workers.set i (Worker.running t))).Perm
            (s.executed ++ ([t] ++ inFlight s.workers)) :=
          List.Perm.append_left _ (hset _)
        refine h1.trans ?_
        have h2 : (s.executed ++ ([t] ++ inFlight s.workers)).Perm
            ((s.executed ++ inFlight s.workers) ++ [t]) := by
          rw [List.append_assoc]
          exact List.Perm.append_left _ List.perm_append_comm
        exact h2.trans (List.Perm.append_right _ hf)
    next => simp at h
  | finish i =>
    simp only [step] at h
    split at h
    next t hw =>
      simp only [Option.some.injEq] at h
      subst h
      have hset := inFlight_set s.workers i (Worker.running t) Worker.ready hw
      simp only [Worker.current, List.nil_append] at hset
      refine ⟨by simpa [submittedOf] using hq, ?_⟩
      have : ((s.executed ++ [t]) ++ inFlight (s.workers.set i Worker.ready)).Perm
          (s.executed ++ inFlight s.workers) := by
        rw [List.append_assoc]
        exact List.Perm.append_left _ hset
      exact this.trans hf
    next => simp at h
  | wake i =>
    simp only [step] at h
    split at h
    next hw =>
      simp only [Option.some.injEq] at h
      subst h
      have hset := inFlight_set s.workers i Worker.waiting Worker.ready hw
      simp only [Worker.current, List.nil_append] at hset
      exact ⟨by simpa [submittedOf] using hq, (List.Perm.append_left _ hset).trans hf⟩
    next => simp at h

theorem submittedOf_cons (e : Event) (es : List Event) :
    submittedOf (e :: es) = submittedOf [e] ++ submittedOf es := by
  cases e <;> simp [submittedOf]

theorem Inv_run (evs : List Event) (s s' : PoolSys) (sub : List Task)
    (hinv : Inv s sub) (h : run s evs = some s') :
    Inv s' (sub ++ submittedOf evs) := by
  induction evs generalizing s sub with
  | nil =>
    simp only [run, Option.some.injEq] at h
    subst h
    simpa [submittedOf] using hinv
  | cons e es ih =>
    simp only [run] at h
    cases hs : step s e with
    | none => simp [hs] at h
    | some s1 =>
      simp only [hs, Option.some_bind] at h
      have := ih s1 _ (Inv_step s s1 sub e hinv hs) h
      rw [submittedOf_cons, ← List.append_assoc]
      exact this

theorem Inv_exec (n : Nat) (evs : List Event) (s : PoolSys)
    (h : exec n evs = some s) : Inv s (submittedOf evs) := by
  unfold exec ThreadPool.ctor at h
  split at h
  · simp at h
  · simp only [Option.some_bind] at h
    have h0 : Inv
        { pool := { isClosed := false, tasks := [] }
          workers := List.replicate n Worker.ready
          popped := []
          executed := [] } [] := by
      refine ⟨rfl, ?_⟩
      have : ∀ k, inFlight (List.replicate k Worker.ready) = [] := by
        intro k
        induction k with
        | zero => rfl
        | succ k ih => simpa [List.replicate_succ, inFlight] using ih
      simp [this]
    simpa using Inv_run evs _ s [] h0 h

/-- A worker that has left its loop takes no further step, so once all have
left nothing is popped or executed any more. -/
theorem step_allExited (s s' : PoolSys) (e : Event)
    (hex : allExited s.workers = true) (h : step s e = some s') :
    allExited s'.workers = true ∧ s'.popped = s.popped ∧ s'.executed = s.executed := by
  have hall : ∀ i w, s.workers.get? i = some w → w = Worker.exited := by
    intro i w hw
    have hmem : w ∈ s.workers := List.get?_mem hw
    simpa using (List.all_eq_true.mp hex) w hmem
  cases e with
  | addTask t =>
    simp only [step, Option.some.injEq] at h
    subst h
    exact ⟨hex, rfl, rfl⟩
  | destroy =>
    simp only [step, Option.some.injEq] at h
    subst h
    exact ⟨hex, rfl, rfl⟩
  | iter i =>
    simp only [step] at h
    split at h
    next hw => exact absurd (hall i _ hw) (by simp)
    next => simp at h
  | finish i =>
    simp only [step] at h
    split at h
    next t hw => exact absurd (hall i _ hw) (by simp)
    next => simp at h
  | wake i =>
    simp only [step] at h
    split at h
    next hw => exact absurd (hall i _ hw) (by simp)
    next => simp at h

theorem run_allExited (evs : List Event) (s s' : PoolSys)
    (hex : allExited s.workers = true) (h : run s evs = some s') :
    allExited s'.workers = true ∧ s'.popped = s.popped ∧ s'.executed = s.executed := by
  induction evs generalizing s with
  | nil =>
    simp only [run, Option.some.injEq] at h
    subst h
    exact ⟨hex, rfl, rfl⟩
  | cons e es ih =>
    simp only [run] at h
    cases hs : step s e with
    | none => simp [hs] at h
    | some s1 =>
      simp only [hs, Option.some_bind] at h
      obtain ⟨h1, h2, h3⟩ := step_allExited s s1 e hex hs
      obtain ⟨k1, k2, k3⟩ := ih s1 h1 h
      exact ⟨k1, k2.trans h2, k3.trans h3⟩

/-! ### The claims on the worker pool -/

/-- C1: in every state reached from a constructed pool by AddTask, worker and
destructor steps, no task is popped more often than it was submitted (a task
submitted once is popped at most once), and when the queue is empty and no
worker is inside a task the executed tasks are the submitted ones, each as
often as it was submitted: their number is the number N of AddTask calls. -/
theorem pool_each_task_once (n : Nat) (evs : List Event) (s : PoolSys)
    (h : exec n evs = some s) :
    (∀ t, s.popped.count t ≤ (submittedOf evs).count t) ∧
    (s.pool.tasks = [] → noneRunning s.workers = true →
      s.executed.length = (submittedOf evs).length ∧
      s.executed.Perm (submittedOf evs)) := by
  obtain ⟨hq, hf⟩ := Inv_exec n evs s h
  refine ⟨?_, ?_⟩
  · intro t
    rw [← hq, List.count_append]
    exact Nat.le_add_right _ _
  · intro ht hr
    rw [ht, List.append_nil] at hq
    rw [inFlight_of_noneRunning _ hr, List.append_nil, hq] at hf
    exact ⟨hf.length_eq, hf⟩

/-- Witness of C1: three tasks on two workers, all run to completion. -/
theorem pool_each_task_once_witness :
    exec 2 threeTasks = some threeTasksDone ∧
    (∀ t, threeTasksDone.popped.count t ≤ (submittedOf threeTasks).count t) ∧
    (threeTasksDone.pool.tasks = [] → noneRunning threeTasksDone.workers = true →
      threeTasksDone.executed.length = (submittedOf threeTasks).length ∧
      threeTasksDone.executed.Perm (submittedOf threeTasks)) :=
  ⟨by decide, pool_each_task_once 2 threeTasks threeTasksDone (by decide)⟩

/-- C8: the tasks are taken from the queue in the order of the AddTask calls:
at every moment the popped tasks followed by the queued ones are the submitted
tasks in submission order, so the popped tasks are an initial segment of the
submissions, and all of them once the queue is empty. -/
theorem pool_pops_in_submission_order (n : Nat) (evs : List Event) (s : PoolSys)
    (h : exec n evs = some s) :
    s.popped ++ s.pool.tasks = submittedOf evs ∧
    s.popped = (submittedOf evs).take s.popped.length ∧
    (s.pool.tasks = [] → s.popped = submittedOf evs) := by
  obtain ⟨hq, -⟩ := Inv_exec n evs s h
  refine ⟨hq, ?_, ?_⟩
  · rw [← hq]
    simp
  · intro ht
    rw [ht, List.append_nil] at hq
    exact hq

/-- Witness of C8: two workers pop three of four tasks in turn. -/
theorem pool_pops_in_submission_order_witness :
    exec 2 fourTasks = some fourTasksMidway ∧
    fourTasksMidway.popped ++ fourTasksMidway.pool.tasks = submittedOf fourTasks ∧
    fourTasksMidway.popped =
      (submittedOf fourTasks).take fourTasksMidway.popped.length ∧
    (fourTasksMidway.pool.tasks = [] → fourTasksMidway.popped = submittedOf fourTasks) :=
  ⟨by decide, pool_pops_in_submission_order 2 fourTasks fourTasksMidway (by decide)⟩

/-- C10: one pass of a worker through its loop pops and runs the front task
whenever the queue is non-empty, whatever isClosed is; with an empty queue it
waits when isClosed is false and leaves the loop when isClosed is true; it
leaves in no other case.  In the pool as a whole, a step after which some
worker has left its loop, and before which it had not, starts in a state with
an empty queue and isClosed = true. -/
theorem worker_leaves_only_when_empty_and_closed :
    (∀ p : Pool,
      (∀ t rest, p.tasks = t :: rest →
        workerIter p = ({ p with tasks := rest }, Worker.running t)) ∧
      (p.tasks = [] → p.isClosed = false → workerIter p = (p, Worker.waiting)) ∧
      (p.tasks = [] → p.isClosed = true → workerIter p = (p, Worker.exited)) ∧
      ((workerIter p).2 = Worker.exited ↔ p.tasks = [] ∧ p.isClosed = true)) ∧
    (∀ (s s' : PoolSys) (e : Event) (i : Nat), step s e = some s' →
      s.workers.get? i ≠ some Worker.exited →
      s'.workers.get? i = some Worker.exited →
      s.pool.tasks = [] ∧ s.pool.isClosed = true) := by
  have hiter : ∀ p : Pool,
      ((workerIter p).2 = Worker.exited ↔ p.tasks = [] ∧ p.isClosed = true) := by
    intro p
    unfold workerIter
    cases hts : p.tasks with
    | nil => cases hc : p.isClosed <;> simp
    | cons t rest => simp
  refine ⟨fun p => ⟨?_, ?_, ?_, hiter p⟩, ?_⟩
  · intro t rest ht
    simp [workerIter, ht]
  · intro ht hc
    simp [workerIter, ht, hc]
  · intro ht hc
    simp [workerIter, ht, hc]
  · intro s s' e i h hbefore hafter
    cases e with
    | addTask t =>
      simp only [step, Option.some.injEq] at h
      subst h
      exact absurd hafter hbefore
    | destroy =>
      simp only [step, Option.some.injEq] at h
      subst h
      exact absurd hafter hbefore
    | iter j =>
      simp only [step] at h
      split at h
      next hw =>
        simp only [Option.some.injEq] at h
        subst h
        by_cases hij : j = i
        · subst hij
          have hlt : j < s.workers.length := by
            by_contra hge
            have : s.workers.get? j = none := by
              simpa using Nat.le_of_not_lt hge
            rw [this] at hw
            exact Option.noConfusion hw
          simp [List.getElem?_set, hlt] at hafter
          exact (hiter s.pool).mp hafter
        · simp [List.getElem?_set, hij] at hafter
          simp [hafter] at hbefore
      next => simp at h
    | finish j =>
      simp only [step] at h
      split at h
      next t hw =>
        simp only [Option.some.injEq] at h
        subst h
        by_cases hij : j = i
        · subst hij
          simp [List.getElem?_set] at hafter
        · simp [List.getElem?_set, hij] at hafter
          simp [hafter] at hbefore
      next => simp at h
    | wake j =>
      simp only [step] at h
      split at h
      next hw =>
        simp only [Option.some.injEq] at h
        subst h
        by_cases hij : j = i
        · subst hij
          simp [List.getElem?_set] at hafter
        · simp [List.getElem?_set, hij] at hafter
          simp [hafter] at hbefore
      next => simp at h

/-- Witness of C10: with the queue [4, 5] and isClosed = true the worker runs
task 4; the only worker of a closed pool with an empty queue leaves its loop,
and the state it leaves from has an empty queue and isClosed = true. -/
theorem worker_leaves_only_when_empty_and_closed_witness :
    workerIter { isClosed := true, tasks := [4, 5] } =
      ({ isClosed := true, tasks := [5] }, Worker.running 4) ∧
    step closedIdle (Event.iter 0) = some closedLeft ∧
    (closedIdle.pool.tasks = [] ∧ closedIdle.pool.isClosed = true) :=
  ⟨(worker_leaves_only_when_empty_and_closed.1
      { isClosed := true, tasks := [4, 5] }).1 4 [5] rfl,
    by decide,
    worker_leaves_only_when_empty_and_closed.2 closedIdle closedLeft (Event.iter 0) 0
      (by decide) (by decide) (by decide)⟩

/-- Counterexample to C2: with one worker busy on task 1 the destructor sets
isClosed; task 2 is passed to AddTask afterwards, and the worker, back from
task 1, pops and runs it. -/
theorem addTask_after_close_is_run :
    (exec 1 [Event.addTask 1, Event.iter 0, Event.destroy]).map
      (fun s => s.pool.isClosed) = some true ∧
    (exec 1 [Event.addTask 1, Event.iter 0, Event.destroy,
        Event.addTask 2, Event.finish 0, Event.iter 0]).map
      (fun s => (s.workers, s.popped)) = some ([Worker.running 2], [1, 2]) ∧
    (exec 1 [Event.addTask 1, Event.iter 0, Event.destroy,
        Event.addTask 2, Event.finish 0, Event.iter 0, Event.finish 0]).map
      (fun s => s.executed) = some [1, 2] := by
  decide

/-- C2, amended: in a reachable state with isClosed = true in which every
worker thread has left its loop, a task passed to AddTask is put at the end of
the queue and stays there: whatever happens afterwards, nothing more is popped
or executed. -/
theorem addTask_after_workers_left_never_runs (n : Nat) (evs0 : List Event)
    (s : PoolSys) (t : Task) (evs : List Event) (s' : PoolSys)
    (h0 : exec n evs0 = some s) (_hc : s.pool.isClosed = true)
    (hex : allExited s.workers = true)
    (h : run s (Event.addTask t :: evs) = some s') :
    s'.popped = s.popped ∧ s'.executed = s.executed ∧
    s'.pool.tasks = s.pool.tasks ++ t :: submittedOf evs := by
  obtain ⟨-, hp, he⟩ := run_allExited _ s s' hex h
  refine ⟨hp, he, ?_⟩
  have hinv : Inv s (s.popped ++ s.pool.tasks) := ⟨rfl, (Inv_exec n evs0 s h0).flight⟩
  have hq := (Inv_run _ s s' _ hinv h).queue
  rw [hp, List.append_assoc] at hq
  have := List.append_cancel_left hq
  simpa [submittedOf] using this

/-- Witness of C2 amended: the only worker left after the destructor ran;
tasks 5 and 6 submitted afterwards stay in the queue. -/
theorem addTask_after_workers_left_never_runs_witness :
    exec 1 [Event.destroy, Event.iter 0] = some closedLeft ∧
    closedLeft.pool.isClosed = true ∧ allExited closedLeft.workers = true ∧
    run closedLeft [Event.addTask 5, Event.addTask 6, Event.destroy] = some closedLeftTwo ∧
    closedLeftTwo.popped = closedLeft.popped ∧
    closedLeftTwo.executed = closedLeft.executed ∧
    closedLeftTwo.pool.tasks =
      closedLeft.pool.tasks ++ 5 :: submittedOf [Event.addTask 6, Event.destroy] :=
  ⟨by decide, rfl, by decide, by decide,
    addTask_after_workers_left_never_runs 1 [Event.destroy, Event.iter 0] closedLeft 5
      [Event.addTask 6, Event.destroy] closedLeftTwo (by decide) rfl (by decide) (by decide)⟩

/-! ### Lemmas on the logger -/

/-- An `init` that returns has opened a stream and stored the day of the
month of its timestamp. -/
theorem Log.init_ok (c : Config) (s : Log) (level : Int) (path : Mem) (suffix : String)
    (q : Int) (sys : Sys) (s' : Log)
    (h : (Log.init c s level path suffix q sys).outcome = Outcome.ok s') :
    s'.fp_ ≠ none ∧ s'.toDay_ = sys.now.tm_mday ∧ s'.lineCount_ = 0 := by
  unfold Log.init at h
  cases hn : Log.initFileName c path suffix sys.now with
  | none => simp [hn] at h
  | some name =>
    simp only [hn] at h
    cases h1 : fopen name sys.fopen1 <;> cases h2 : fopen name sys.fopen2 <;>
      simp only [h1, h2, if_true, if_false, Bool.false_eq_true, Outcome.ok.injEq,
        reduceCtorEq] at h <;>
      (subst h; simp)

theorem Log.newFile_fp (c : Config) (s : Log) (t : Tm) :
    (Log.newFile c s t).2.fp_ = s.fp_ := by
  unfold Log.newFile
  split <;> rfl

theorem Log.rotationDue_iff (c : Config) (s : Log) (t : Tm) :
    Log.rotationDue c s t = true ↔
      (s.toDay_ ≠ t.tm_mday ∨ (s.lineCount_ ≠ 0 ∧ s.lineCount_.tmod c.MAX_LINES = 0)) := by
  simp [Log.rotationDue]

/-- A write for which a rotation is due, with a stream open: it flushes,
closes that stream, and then calls `fopen` for the name in `newFile`. -/
theorem Log.write_due (c : Config) (s : Log) (f : String) (level : Int)
    (format : String) (sys : Sys) (hf : s.fp_ = some f)
    (hd : Log.rotationDue c s sys.now = true) :
    Log.write c s level format sys =
      { effects := [Effect.flush, Effect.fclose f,
          Effect.fopen (Log.newFile c s sys.now).1
            (fopen (Log.newFile c s sys.now).1 sys.fopen1)]
        outcome :=
          if fopen (Log.newFile c s sys.now).1 sys.fopen1 = true then
            Outcome.ok { (Log.newFile c s sys.now).2 with
              fp_ := some (Log.newFile c s sys.now).1 }
          else Outcome.assertFailed } := by
  have hfp : (Log.newFile c s sys.now).2.fp_ = some f := by
    rw [Log.newFile_fp, hf]
  unfold Log.write
  simp only [hd, if_true]
  split
  next hn => rw [hfp] at hn; exact Option.noConfusion hn
  next g hg =>
    rw [hfp] at hg
    cases hg
    cases h1 : fopen (Log.newFile c s sys.now).1 sys.fopen1 <;> simp

/-- A write for which no rotation is due does nothing. -/
theorem Log.write_not_due (c : Config) (s : Log) (level : Int) (format : String)
    (sys : Sys) (hd : Log.rotationDue c s sys.now = false) :
    Log.write c s level format sys = { effects := [], outcome := Outcome.ok s } := by
  simp [Log.write, hd]

theorem Log.write_fp (c : Config) (s : Log) (level : Int) (format : String)
    (sys : Sys) (s' : Log) (hs : s.fp_ ≠ none)
    (h : (Log.write c s level format sys).outcome = Outcome.ok s') :
    s'.fp_ ≠ none := by
  cases hd : Log.rotationDue c s sys.now with
  | false =>
    rw [Log.write_not_due c s level format sys hd] at h
    simp only [Outcome.ok.injEq] at h
    subst h
    exact hs
  | true =>
    cases hf : s.fp_ with
    | none => exact absurd hf hs
    | some f =>
      rw [Log.write_due c s f level format sys hf hd] at h
      cases h1 : fopen (Log.newFile c s sys.now).1 sys.fopen1 <;>
        simp only [h1, if_true, if_false, Bool.false_eq_true, Outcome.ok.injEq,
          reduceCtorEq] at h
      subst h
      simp

theorem Log.call_fp (c : Config) (s : Log) (k : LogCall) (s' : Log)
    (hs : s.fp_ ≠ none) (h : (Log.call c s k).outcome = Outcome.ok s') :
    s'.fp_ ≠ none := by
  cases k with
  | init level path suffix q sys => exact (Log.init_ok c s level path suffix q sys s' h).1
  | write level format sys => exact Log.write_fp c s level format sys s' hs h
  | SetLevel level =>
    simp only [Log.call, Outcome.ok.injEq] at h
    subst h
    exact hs

theorem Log.calls_fp (c : Config) (ks : List LogCall) (s s' : Log)
    (hs : s.fp_ ≠ none) (h : (Log.calls c s ks).outcome = Outcome.ok s') :
    s'.fp_ ≠ none := by
  induction ks generalizing s with
  | nil =>
    simp only [Log.calls, Outcome.ok.injEq] at h
    subst h
    exact hs
  | cons k ks ih =>
    simp only [Log.calls] at h
    cases hk : (Log.call c s k).outcome with
    | ok s1 =>
      simp only [hk] at h
      exact ih s1 (Log.call_fp c s k s1 hs hk) h
    | assertFailed => simp [hk] at h
    | undefined => simp [hk] at h

/-- A write on the day of the month held in `toDay_`, with `lineCount_` zero,
does nothing. -/
theorem Log.write_same_day (c : Config) (s : Log) (level : Int) (format : String)
    (sys : Sys) (hd : s.toDay_ = sys.now.tm_mday) (hl : s.lineCount_ = 0) :
    Log.write c s level format sys = { effects := [], outcome := Outcome.ok s } := by
  simp [Log.write, Log.rotationDue, hd, hl]

/-- Any number of such writes does nothing. -/
theorem Log.writes_same_day (c : Config) (s : Log) (level : Int) (format : String)
    (sys : Sys) (hd : s.toDay_ = sys.now.tm_mday) (hl : s.lineCount_ = 0) (M : Nat) :
    Log.calls c s (List.replicate M (LogCall.write level format sys)) =
      { effects := [], outcome := Outcome.ok s } := by
  induction M with
  | zero => rfl
  | succ M ih =>
    simp only [List.replicate_succ, Log.calls, Log.call,
      Log.write_same_day c s level format sys hd hl, ih, List.append_nil]

/-- An `init` whose file name is not empty and whose file the file system
lets it open returns; its calls and the state it returns are spelled out. -/
theorem Log.init_returns (c : Config) (s : Log) (level : Int) (path : Mem)
    (suffix : String) (q : Int) (sys : Sys) (name : String)
    (hname : Log.initFileName c path suffix sys.now = some name) (hne : name ≠ "")
    (hopen : sys.fopen1 = true ∨ sys.fopen2 = true) :
    Log.init c s level path suffix q sys =
      { effects := (Log.initMode c s level q).2 ++ [Effect.retrieveAll]
          ++ closing (Log.initMode c s level q).1.fp_
          ++ (if sys.fopen1 = true then [Effect.fopen name true]
              else [Effect.fopen name false, Effect.mkdir (cstr path),
                Effect.fopen name true])
        outcome := Outcome.ok
          { (Log.initMode c s level q).1 with
            lineCount_ := 0
            path_ := path
            suffix_ := suffix
            toDay_ := sys.now.tm_mday
            fp_ := some name } } := by
  unfold Log.init
  simp only [hname]
  cases h1 : sys.fopen1 <;> cases h2 : sys.fopen2 <;>
    simp [fopen, hne, h1, h2] at hopen ⊢

theorem Log.initMode_fp (c : Config) (s : Log) (level : Int) (q : Int) :
    (Log.initMode c s level q).1.fp_ = s.fp_ := by
  unfold Log.initMode
  by_cases hq : q > 0
  · cases hd : s.deque_ <;> simp [hq, hd]
  · simp [hq]

theorem filesOpened_append (xs ys : List Effect) :
    filesOpened (xs ++ ys) = filesOpened xs ++ filesOpened ys := by
  induction xs with
  | nil => rfl
  | cons e xs ih =>
    cases e with
    | fopen f ok => cases ok <;> simp [filesOpened, ih]
    | _ => simp [filesOpened, ih]

theorem creations_append (xs ys : List Effect) :
    creations (xs ++ ys) = creations xs ++ creations ys := by
  induction xs with
  | nil => rfl
  | cons e xs ih => cases e <;> simp [creations, ih]

theorem filesOpened_closing (o : Option String) : filesOpened (closing o) = [] := by
  cases o <;> rfl

theorem creations_closing (o : Option String) : creations (closing o) = [] := by
  cases o <;> rfl

/-- The queues and threads an `init` that returns creates are those of
`initMode`. -/
theorem Log.init_creations (c : Config) (s : Log) (level : Int) (path : Mem)
    (suffix : String) (q : Int) (sys : Sys) (name : String)
    (hname : Log.initFileName c path suffix sys.now = some name) (hne : name ≠ "")
    (hopen : sys.fopen1 = true ∨ sys.fopen2 = true) :
    creations (Log.init c s level path suffix q sys).effects =
      creations (Log.initMode c s level q).2 := by
  rw [Log.init_returns c s level path suffix q sys name hname hne hopen]
  cases h1 : sys.fopen1 <;>
    simp [creations_append, creations_closing, creations]

/-- The only file an `init` that returns opens is the one named by
`initFileName`. -/
theorem Log.init_filesOpened (c : Config) (s : Log) (level : Int) (path : Mem)
    (suffix : String) (q : Int) (sys : Sys) (name : String)
    (hname : Log.initFileName c path suffix sys.now = some name) (hne : name ≠ "")
    (hopen : sys.fopen1 = true ∨ sys.fopen2 = true) :
    filesOpened (Log.init c s level path suffix q sys).effects = [name] := by
  have hmode : filesOpened (Log.initMode c s level q).2 = [] := by
    unfold Log.initMode
    by_cases hq : q > 0
    · cases hd : s.deque_ <;> simp [hq, hd, filesOpened]
    · simp [hq, filesOpened]
  rw [Log.init_returns c s level path suffix q sys name hname hne hopen]
  cases h1 : sys.fopen1 <;>
    simp [filesOpened_append, filesOpened_closing, hmode, filesOpened]

/-- For every number `M` of writes and every `MAX_LINES`: an `init` that
returns, followed by `M` writes stamped with the day of the month of `init`,
opens the file of `init` and no other. -/
theorem Log.init_then_writes_open_one_file (c : Config) (s : Log) (level : Int)
    (path : Mem) (suffix : String) (q : Int) (sys : Sys) (name : String)
    (hname : Log.initFileName c path suffix sys.now = some name) (hne : name ≠ "")
    (hopen : sys.fopen1 = true ∨ sys.fopen2 = true)
    (lv : Int) (format : String) (sysw : Sys)
    (hday : sysw.now.tm_mday = sys.now.tm_mday) (M : Nat) :
    filesOpened (Log.calls c s (LogCall.init level path suffix q sys ::
      List.replicate M (LogCall.write lv format sysw))).effects = [name] := by
  have hret := Log.init_returns c s level path suffix q sys name hname hne hopen
  have hfiles := Log.init_filesOpened c s level path suffix q sys name hname hne hopen
  simp only [Log.calls, Log.call]
  rw [hret] at hfiles ⊢
  simp only []
  rw [Log.writes_same_day c _ lv format sysw (by simp [hday]) rfl M]
  simpa using hfiles

/-! ### The claims on the logger -/

/-- Counterexample to C3: init, called with the path l, sets the threshold 2
and opens l/2024_01_15.log on 15 January 2024; a write of level 0 stamped
16 January then closes that file, opens another and changes toDay_ and fp_. -/
theorem write_below_threshold_rotates :
    Log.init exampleConfig (Log.ctor false 0 [] "") 2 pathL ".log" 0 jan15 =
      { effects := [Effect.retrieveAll, Effect.fopen "l/2024_01_15.log" true]
        outcome := Outcome.ok (openedJan15 2) } ∧
    (0 : Int) < (openedJan15 2).level_ ∧
    Log.write exampleConfig (openedJan15 2) 0 "%s" jan16 =
      { effects := [Effect.flush, Effect.fclose "l/2024_01_15.log",
          Effect.fopen "l/2024_2024_01.log" true]
        outcome := Outcome.ok
          { openedJan15 2 with toDay_ := 16, fp_ := some "l/2024_2024_01.log" } } := by
  decide

/-- C3, amended: write does not read level_.  A write below the threshold does
what a write at the threshold does.  It leaves the logger state unchanged and
opens or closes no file when no rotation is due, that is when the day of the
month of its timestamp is toDay_ and lineCount_ is zero or not a multiple of
MAX_LINES.  When a rotation is due and a file is open, it flushes, closes the
file and calls fopen for the next name, whatever the level. -/
theorem write_below_threshold_noop_unless_due (c : Config) (s : Log) (level : Int)
    (format : String) (sys : Sys) (_hlevel : level < s.level_) :
    Log.write c s level format sys = Log.write c s s.level_ format sys ∧
    (s.toDay_ = sys.now.tm_mday →
      (s.lineCount_ = 0 ∨ s.lineCount_.tmod c.MAX_LINES ≠ 0) →
      Log.write c s level format sys = { effects := [], outcome := Outcome.ok s }) ∧
    (∀ f, s.fp_ = some f →
      (s.toDay_ ≠ sys.now.tm_mday ∨
        (s.lineCount_ ≠ 0 ∧ s.lineCount_.tmod c.MAX_LINES = 0)) →
      (Log.write c s level format sys).effects =
        [Effect.flush, Effect.fclose f,
          Effect.fopen (Log.newFile c s sys.now).1
            (fopen (Log.newFile c s sys.now).1 sys.fopen1)]) := by
  refine ⟨rfl, ?_, ?_⟩
  · intro hday hline
    rcases hline with hl | hl <;> simp [Log.write, Log.rotationDue, hday, hl]
  · intro f hf hdue
    have hd : Log.rotationDue c s sys.now = true := by
      simpa [Log.rotationDue] using hdue
    have hfp : (Log.newFile c s sys.now).2.fp_ = some f := by
      unfold Log.newFile
      split <;> exact hf
    unfold Log.write
    simp only [hd, if_true]
    split
    next hn => rw [hfp] at hn; exact Option.noConfusion hn
    next g hg =>
      rw [hfp] at hg
      cases hg
      cases h1 : fopen (Log.newFile c s sys.now).1 sys.fopen1 <;> simp

/-- Witness of C3 amended: level 0 under threshold 2, on the day the file was
opened. -/
theorem write_below_threshold_noop_unless_due_witness :
    (0 : Int) < (openedJan15 2).level_ ∧
    (openedJan15 2).toDay_ = jan15.now.tm_mday ∧
    Log.write exampleConfig (openedJan15 2) 0 "%s" jan15 =
      { effects := [], outcome := Outcome.ok (openedJan15 2) } :=
  ⟨by decide, by decide,
    (write_below_threshold_noop_unless_due exampleConfig (openedJan15 2) 0 "%s" jan15
      (by decide)).2.1 (by decide) (Or.inl (by decide))⟩

/-- Counterexample to C4: init, called with the path l, opens
l/2024_01_15.log on 15 January 2024; a write stamped 15 February 2024, another
calendar date, closes and opens nothing. -/
theorem write_next_month_same_day_keeps_file :
    Log.init exampleConfig (Log.ctor false 0 [] "") 1 pathL ".log" 0 jan15 =
      { effects := [Effect.retrieveAll, Effect.fopen "l/2024_01_15.log" true]
        outcome := Outcome.ok (openedJan15 1) } ∧
    jan15.now ≠ feb15.now ∧
    Log.write exampleConfig (openedJan15 1) 1 "%s" feb15 =
      { effects := [], outcome := Outcome.ok (openedJan15 1) } := by
  decide

/-- C4, amended: with a file open, write rotates if and only if the day of the
month of its timestamp differs from toDay_, the day of the month stored by the
last init or day rotation, or lineCount_ is non-zero and a multiple of
MAX_LINES.  Rotating is, in this order: flush, fclose of the open stream,
fopen of the name built in newFile; the call returns with fp_ on that name
when fopen gives a stream and fails its assert otherwise.  When it does not
rotate it makes no call and changes nothing.  In particular a write rotates
when its day of the month differs from that of the init that opened the
file. -/
theorem write_rotates_iff_day_of_month_or_lines (c : Config) (s : Log) (f : String)
    (level : Int) (format : String) (sys : Sys)
    (_hM : c.MAX_LINES ≠ 0) (hf : s.fp_ = some f) :
    ((Log.write c s level format sys).effects =
        [Effect.flush, Effect.fclose f,
          Effect.fopen (Log.newFile c s sys.now).1
            (fopen (Log.newFile c s sys.now).1 sys.fopen1)] ↔
      (s.toDay_ ≠ sys.now.tm_mday ∨
        (s.lineCount_ ≠ 0 ∧ s.lineCount_.tmod c.MAX_LINES = 0))) ∧
    ((s.toDay_ ≠ sys.now.tm_mday ∨
        (s.lineCount_ ≠ 0 ∧ s.lineCount_.tmod c.MAX_LINES = 0)) →
      (Log.write c s level format sys).outcome =
        if fopen (Log.newFile c s sys.now).1 sys.fopen1 = true then
          Outcome.ok { (Log.newFile c s sys.now).2 with
            fp_ := some (Log.newFile c s sys.now).1 }
        else Outcome.assertFailed) ∧
    (¬ (s.toDay_ ≠ sys.now.tm_mday ∨
        (s.lineCount_ ≠ 0 ∧ s.lineCount_.tmod c.MAX_LINES = 0)) →
      Log.write c s level format sys = { effects := [], outcome := Outcome.ok s }) ∧
    (∀ (s0 : Log) (lv : Int) (path : Mem) (suffix : String) (q : Int) (sys0 : Sys),
      (Log.init c s0 lv path suffix q sys0).outcome = Outcome.ok s →
      sys0.now.tm_mday ≠ sys.now.tm_mday →
      (Log.write c s level format sys).effects =
        [Effect.flush, Effect.fclose f,
          Effect.fopen (Log.newFile c s sys.now).1
            (fopen (Log.newFile c s sys.now).1 sys.fopen1)]) := by
  have hiff : Log.rotationDue c s sys.now = true ↔
      (s.toDay_ ≠ sys.now.tm_mday ∨
        (s.lineCount_ ≠ 0 ∧ s.lineCount_.tmod c.MAX_LINES = 0)) := by
    simp [Log.rotationDue]
  have hfp : (Log.newFile c s sys.now).2.fp_ = some f := by
    unfold Log.newFile
    split <;> exact hf
  have hyes : Log.rotationDue c s sys.now = true →
      Log.write c s level format sys =
        { effects := [Effect.flush, Effect.fclose f,
            Effect.fopen (Log.newFile c s sys.now).1
              (fopen (Log.newFile c s sys.now).1 sys.fopen1)]
          outcome :=
            if fopen (Log.newFile c s sys.now).1 sys.fopen1 = true then
              Outcome.ok { (Log.newFile c s sys.now).2 with
                fp_ := some (Log.newFile c s sys.now).1 }
            else Outcome.assertFailed } := by
    intro hd
    unfold Log.write
    simp only [hd, if_true]
    split
    next hn => rw [hfp] at hn; exact Option.noConfusion hn
    next g hg =>
      rw [hfp] at hg
      cases hg
      cases h1 : fopen (Log.newFile c s sys.now).1 sys.fopen1 <;> simp
  have hno : Log.rotationDue c s sys.now = false →
      Log.write c s level format sys = { effects := [], outcome := Outcome.ok s } := by
    intro hd
    simp [Log.write, hd]
  refine ⟨⟨?_, fun h => by rw [hyes (hiff.mpr h)]⟩, ?_, ?_, ?_⟩
  · intro heff
    cases hd : Log.rotationDue c s sys.now with
    | true => exact hiff.mp hd
    | false =>
      rw [hno hd] at heff
      simp at heff
  · intro h
    rw [hyes (hiff.mpr h)]
  · intro h
    apply hno
    cases hd : Log.rotationDue c s sys.now with
    | true => exact absurd (hiff.mp hd) h
    | false => rfl
  · intro s0 lv path suffix q sys0 hinit hne
    have hday : s.toDay_ = sys0.now.tm_mday := by
      unfold Log.init at hinit
      cases hn : Log.initFileName c path suffix sys0.now with
      | none => simp [hn] at hinit
      | some name =>
        simp only [hn] at hinit
        cases h1 : fopen name sys0.fopen1 <;> cases h2 : fopen name sys0.fopen2 <;>
          simp only [h1, h2, if_true, if_false, Bool.false_eq_true, Outcome.ok.injEq,
            reduceCtorEq] at hinit <;>
          (subst hinit; rfl)
    rw [hyes (hiff.mpr (Or.inl (by rw [hday]; exact hne)))]

/-- Witness of C4 amended: a file opened by init on the 15th, a write on the
16th. -/
theorem write_rotates_iff_day_of_month_or_lines_witness :
    exampleConfig.MAX_LINES ≠ 0 ∧
    (openedJan15 1).fp_ = some "l/2024_01_15.log" ∧
    (Log.init exampleConfig (Log.ctor false 0 [] "") 1 pathL ".log" 0 jan15).outcome =
      Outcome.ok (openedJan15 1) ∧
    Log.write exampleConfig (openedJan15 1) 1 "%s" jan16 =
      { effects := [Effect.flush, Effect.fclose "l/2024_01_15.log",
          Effect.fopen "l/2024_2024_01.log" true]
        outcome := Outcome.ok
          { openedJan15 1 with toDay_ := 16, fp_ := some "l/2024_2024_01.log" } } ∧
    (Log.write exampleConfig (openedJan15 1) 1 "%s" jan16).effects =
      [Effect.flush, Effect.fclose "l/2024_01_15.log",
        Effect.fopen "l/2024_2024_01.log" true] :=
  ⟨by decide, rfl, by decide, by decide,
    (write_rotates_iff_day_of_month_or_lines exampleConfig (openedJan15 1)
      "l/2024_01_15.log" 1 "%s" jan16 (by decide) rfl).2.2.2
      (Log.ctor false 0 [] "") 1 pathL ".log" 0 jan15 (by decide) (by decide)⟩

/-- C5, evaluated: init is called with the path l (the argument
"l\0\0\0\0\0\0", which reads as l both as a narrow and as a wide string) on
15 January 2024 and opens l/2024_01_15.log; a line is written on 16 January.
The rotation opens l/2024_2024_01.log, with the year twice and no day, where
the naming rule asks for l/2024_01_16.log.  Called with the path ./log, init
prints nothing into the file name (the conversion of the path fails), calls
fopen with the empty name twice and fails its assert: no file is opened. -/
theorem write_names_file_with_year_twice :
    Log.calls exampleConfig (Log.ctor false 0 [] "")
      [LogCall.init 1 pathL ".log" 0 jan15, LogCall.write 1 "%s" jan16] =
      { effects := [Effect.retrieveAll, Effect.fopen "l/2024_01_15.log" true,
          Effect.flush, Effect.fclose "l/2024_01_15.log",
          Effect.fopen "l/2024_2024_01.log" true]
        outcome := Outcome.ok
          { openedJan15 1 with toDay_ := 16, fp_ := some "l/2024_2024_01.log" } } ∧
    cstr pathL = "l" ∧
    "l/2024_2024_01.log" ≠ "l/2024_01_16.log" ∧
    cstr dotLog = "./log" ∧
    Log.init exampleConfig (Log.ctor false 0 [] "") 1 dotLog ".log" 0 jan15 =
      { effects := [Effect.retrieveAll, Effect.fopen "" false, Effect.mkdir "./log",
          Effect.fopen "" false]
        outcome := Outcome.assertFailed } := by
  decide

/-- C6, evaluated: with MAX_LINES = 2, init (called with the path l) followed
by three writes on the same day opens one file only, the one of init, and
lineCount_ is still 0; three lines at two per file need two files. -/
theorem three_writes_open_one_file :
    smallConfig.MAX_LINES = 2 ∧
    Log.calls smallConfig (Log.ctor false 0 [] "")
      [LogCall.init 1 pathL ".log" 0 jan15, LogCall.write 1 "%s" jan15,
        LogCall.write 1 "%s" jan15, LogCall.write 1 "%s" jan15] =
      { effects := [Effect.retrieveAll, Effect.fopen "l/2024_01_15.log" true]
        outcome := Outcome.ok (openedJan15 1) } ∧
    (openedJan15 1).lineCount_ = 0 ∧
    (filesOpened (Log.calls smallConfig (Log.ctor false 0 [] "")
      [LogCall.init 1 pathL ".log" 0 jan15, LogCall.write 1 "%s" jan15,
        LogCall.write 1 "%s" jan15, LogCall.write 1 "%s" jan15]).effects).length = 1 ∧
    (3 + 2 - 1) / 2 = 2 := by
  decide

/-- Counterexample to C7: after init with a queue size of 8 and then init with
0, the logger is synchronous and still has its writer thread; and the queue
made for size 8 has the capacity of the default constructor (1000 here), kept
as it is when init is called again with size 9. -/
theorem init_sync_keeps_thread_and_capacity_is_default :
    (Log.calls exampleConfig (Log.ctor false 0 [] "")
      [LogCall.init 1 pathL ".log" 8 jan15, LogCall.init 1 pathL ".log" 0 jan15]).outcome =
      Outcome.ok
        { openedJan15 1 with
          isAsync_ := false
          writeThread_ := some Thread.FlushLogThread
          deque_ := some { capacity := 1000 } } ∧
    Log.calls exampleConfig (Log.ctor false 0 [] "")
      [LogCall.init 1 pathL ".log" 8 jan15] =
      { effects := [Effect.newDeque 1000, Effect.newThread, Effect.retrieveAll,
          Effect.fopen "l/2024_01_15.log" true]
        outcome := Outcome.ok
          { openedJan15 1 with
            isAsync_ := true
            writeThread_ := some Thread.FlushLogThread
            deque_ := some { capacity := 1000 } } } ∧
    (Log.calls exampleConfig (Log.ctor false 0 [] "")
      [LogCall.init 1 pathL ".log" 8 jan15, LogCall.init 1 pathL ".log" 9 jan15]).outcome =
      Outcome.ok
        { openedJan15 1 with
          isAsync_ := true
          writeThread_ := some Thread.FlushLogThread
          deque_ := some { capacity := 1000 } } := by
  decide

/-- C7, amended: an init whose file name is not empty and whose file can be
opened returns, and the sign of queueCapacity selects isAsync_.  With
queueCapacity at most 0 isAsync_ is false, the queue and the writer thread are
left as they were (none when there were none) and no queue or thread is
created.  With queueCapacity above 0 isAsync_ is true; when there was no
queue, exactly one queue of the default capacity of BlockDeque and one writer
thread are created; when there was a queue, it and the thread are kept and no
queue or thread is created.  The capacity is never taken from
queueCapacity. -/
theorem init_selects_mode (c : Config) (s : Log) (level : Int) (path : Mem)
    (suffix : String) (q : Int) (sys : Sys) (name : String)
    (hname : Log.initFileName c path suffix sys.now = some name) (hne : name ≠ "")
    (hopen : sys.fopen1 = true ∨ sys.fopen2 = true) :
    ∃ s', (Log.init c s level path suffix q sys).outcome = Outcome.ok s' ∧
      (q ≤ 0 → s'.isAsync_ = false ∧ s'.deque_ = s.deque_ ∧
        s'.writeThread_ = s.writeThread_ ∧
        creations (Log.init c s level path suffix q sys).effects = []) ∧
      (0 < q → s'.isAsync_ = true ∧
        (s.deque_ = none →
          s'.deque_ = some { capacity := c.dequeCapacity } ∧
          s'.writeThread_ = some Thread.FlushLogThread ∧
          creations (Log.init c s level path suffix q sys).effects =
            [Effect.newDeque c.dequeCapacity, Effect.newThread]) ∧
        (s.deque_ ≠ none →
          s'.deque_ = s.deque_ ∧ s'.writeThread_ = s.writeThread_ ∧
          creations (Log.init c s level path suffix q sys).effects = [])) := by
  have hcre := Log.init_creations c s level path suffix q sys name hname hne hopen
  have hret := Log.init_returns c s level path suffix q sys name hname hne hopen
  refine ⟨_, by rw [hret], ?_, ?_⟩
  · intro hq
    have hq' : ¬ 0 < q := not_lt.mpr hq
    rw [hcre]
    simp [Log.initMode, hq', creations]
  · intro hq
    rw [hcre]
    refine ⟨by cases hdq : s.deque_ <;> simp [Log.initMode, hq, hdq], ?_, ?_⟩
    · intro hd
      simp [Log.initMode, hq, hd, creations]
    · intro hd
      cases hdq : s.deque_ with
      | none => exact absurd hdq hd
      | some d => simp [Log.initMode, hq, hdq, creations]

/-- Witness of C7 amended: the first init of a logger, with the path l and
queue size 8, where fopen succeeds only after mkdir. -/
theorem init_selects_mode_witness :
    Log.initFileName exampleConfig pathL ".log" afterMkdir.now = some "l/2024_01_16.log" ∧
    (afterMkdir.fopen1 = true ∨ afterMkdir.fopen2 = true) ∧
    ∃ s', (Log.init exampleConfig (Log.ctor false 0 [] "") 1 pathL ".log" 8
        afterMkdir).outcome = Outcome.ok s' ∧
      s'.isAsync_ = true ∧ s'.deque_ = some { capacity := 1000 } ∧
      s'.writeThread_ = some Thread.FlushLogThread ∧
      creations (Log.init exampleConfig (Log.ctor false 0 [] "") 1 pathL ".log" 8
        afterMkdir).effects = [Effect.newDeque 1000, Effect.newThread] :=
  ⟨by decide, Or.inr rfl,
    (init_selects_mode exampleConfig (Log.ctor false 0 [] "") 1 pathL ".log" 8
      afterMkdir "l/2024_01_16.log" (by decide) (by decide) (Or.inr rfl)).imp
      fun _ h => ⟨h.1, (h.2.2 (by decide)).1, ((h.2.2 (by decide)).2.1 rfl).1,
        ((h.2.2 (by decide)).2.1 rfl).2.1, ((h.2.2 (by decide)).2.1 rfl).2.2⟩⟩

/-- C9: starting from a constructed Log, after an init that returned and any
further init, write and SetLevel calls that all returned, fp_ is not null.
(An init or write returns only when its assert on fp_ held.) -/
theorem fp_nonnull_after_init (c : Config) (isOpen : Bool) (level0 : Int)
    (path0 : Mem) (suffix0 : String) (level : Int) (path : Mem) (suffix : String)
    (q : Int) (sys : Sys) (ks : List LogCall) (s : Log)
    (h : (Log.calls c (Log.ctor isOpen level0 path0 suffix0)
      (LogCall.init level path suffix q sys :: ks)).outcome = Outcome.ok s) :
    s.fp_ ≠ none := by
  simp only [Log.calls] at h
  cases hk : (Log.call c (Log.ctor isOpen level0 path0 suffix0)
      (LogCall.init level path suffix q sys)).outcome with
  | ok s1 =>
    simp only [hk] at h
    exact Log.calls_fp c ks s1 s (Log.init_ok c _ level path suffix q sys s1 hk).1 h
  | assertFailed => simp [hk] at h
  | undefined => simp [hk] at h

/-- Witness of C9: init with the path l, a write on the next day (a rotation),
SetLevel, a second init in asynchronous mode, and a write on the same day. -/
theorem fp_nonnull_after_init_witness :
    (Log.calls exampleConfig (Log.ctor false 0 [] "")
      (LogCall.init 1 pathL ".log" 0 jan15 ::
        [LogCall.write 1 "%s" jan16, LogCall.SetLevel 3,
          LogCall.init 0 pathL ".log" 4 afterMkdir, LogCall.write 0 "%s" jan16])).outcome =
      Outcome.ok reopenedJan16 ∧
    reopenedJan16.fp_ ≠ none :=
  ⟨by decide,
    fp_nonnull_after_init exampleConfig false 0 [] "" 1 pathL ".log" 0 jan15
      [LogCall.write 1 "%s" jan16, LogCall.SetLevel 3,
        LogCall.init 0 pathL ".log" 4 afterMkdir, LogCall.write 0 "%s" jan16]
      reopenedJan16 (by decide)⟩

end mfwu_webserver
